import Mathlib

/-!
Verification development for the Gomoku engine core (12x12 board, threat
solver, transposition-table score encoding).

The definitions below are a shallow embedding of the C++ sources:
  - include/core/board.h, include_new/core/board.h (Board, Move, Player)
  - src/tactics/threat_solver_analysis.cpp (solver queries)
  - src/tactics/threat_solver_state.cpp (threat-board queries)
  - include/tactics/threat_solver_types.h (threat data types, search limits)
  - include_new/search/search_types.h, transposition_table.h (scores)

Board member-function bodies (makeMove, checkWin, getLegalMoves) and the
TranspositionTable score conversions are declared in the headers but their
implementation files are not part of the sources; those definitions are
modelled from the specification and are marked as such in their doc
comments.  Everything else is translated directly from the C++ code.
-/

/-- The two players, from board.h. -/
inductive Player where
  | Black
  | White
deriving DecidableEq, Repr

/-- Local helper from threat_solver_analysis.cpp: the opponent of a player. -/
def otherPlayer (p : Player) : Player :=
  match p with
  | Player.Black => Player.White
  | Player.White => Player.Black

/-- Coordinate-based move from board.h; the C++ members are plain `int`. -/
structure Move where
  x : Int
  y : Int
deriving DecidableEq, Repr

/-- Source translation of `Move::operator<` in include/core/board.h:
`(x < other.x) || (x == other.x && y < other.y)`. -/
def Move.lt (a b : Move) : Bool :=
  decide (a.x < b.x) || (decide (a.x = b.x) && decide (a.y < b.y))

/-- The ordering the spec describes for Move (row-major: by y then x).
This definition follows the words of the spec, for comparison with the
source definition `Move.lt`. -/
def specRowMajorLt (a b : Move) : Bool :=
  decide (a.y < b.y) || (decide (a.y = b.y) && decide (a.x < b.x))

/-- Threat directions, from threat_solver_types.h. -/
inductive Direction where
  | Horizontal
  | Vertical
  | DiagNWSE
  | DiagNESW
deriving DecidableEq, Repr

/-- Threat type classification, from threat_solver_types.h. -/
inductive ThreatType where
  | None
  | Five
  | OpenFour
  | SimpleFour
  | OpenThree
  | BrokenThree
  | SimpleThree
  | TwoFourWays
  | TwoThreeWays
  | TwoTwoWays
  | TwoOneWay
  | OneFiveWays
  | OneFourWays
  | OneThreeWays
  | OneTwoWays
  | OneOneWay
deriving DecidableEq, Repr

/-- Concrete threat instance, from threat_solver_types.h. -/
structure ThreatInstance where
  type : ThreatType := ThreatType.None
  attacker : Player := Player.Black
  direction : Direction := Direction.Horizontal
  stones : List Move := []
  requiredEmpty : List Move := []
  defensePoints : List Move := []
  finishingMoves : List Move := []
deriving DecidableEq, Repr

/-- Forcing threat sequence, from threat_solver_types.h. -/
structure ThreatSequence where
  attacker : Player := Player.Black
  threats : List ThreatInstance := []
  attackerMoves : List Move := []
  defenderMoves : List Move := []
deriving DecidableEq, Repr

/-- Result of the defensive computation, from threat_solver_types.h. -/
structure DefensiveSet where
  isLost : Bool := false
  defensiveMoves : List Move := []
deriving DecidableEq, Repr

/-- Search limits, from threat_solver_types.h.  The C++ abort flag is a
non-owning `const bool*`; a null pointer is `none`, a pointer to a flag
with value `f` is `some f` (the flag is read-only during one call). -/
structure ThreatSearchLimits where
  maxNodes : Int := 200000
  maxDepth : Int := 20
  abortFlag : Option Bool := none

/-- The abort test `limits.abortFlag && *limits.abortFlag` from
threat_solver_analysis.cpp. -/
def abortRequested (limits : ThreatSearchLimits) : Bool :=
  match limits.abortFlag with
  | some f => f
  | none => false

/-- The Zobrist random constants of board.h (`zobristTable_`, `zobristSide_`),
kept abstract: any assignment of 64-bit constants to (cell, color) pairs and
to the side to move. -/
structure Zobrist where
  table : Int → Int → Player → Nat
  side : Nat

/-- Board state from board.h: occupancy (the two bitboards `bb_`), side to
move and the incremental Zobrist hash.  Occupancy is modelled as a cell map;
only in-range cells are ever observable (see `getCell`). -/
structure Board where
  cells : Int → Int → Option Player
  sideToMove : Player
  hashKey : Nat

/-- Bounds predicate for one coordinate: `0 <= v < 12` (kBoardSize = 12). -/
def inB (v : Int) : Prop := 0 ≤ v ∧ v < 12

instance (v : Int) : Decidable (inB v) :=
  inferInstanceAs (Decidable (0 ≤ v ∧ v < 12))

/-- Reading one cell of the board; out-of-range reads see an empty cell
(the bitboards of board.h hold no out-of-range bits). -/
def getCell (b : Board) (x y : Int) : Option Player :=
  if inB x ∧ inB y then b.cells x y else none

/-- `Board::isOccupied` from board.h: the cell holds either color. -/
def Board.isOccupied (b : Board) (x y : Int) : Bool :=
  (getCell b x y).isSome

/-- Pure helper: the board with a stone of `p` written at `(x, y)` and all
other state unchanged (the occupancy effect shared by `makeMove` and the
setup utility `placeStone`). -/
def Board.setCell (b : Board) (x y : Int) (p : Player) : Board :=
  { b with cells := fun a c => if a = x ∧ c = y then some p else b.cells a c }

/-- Modelled from the spec: the body of `Board::makeMove` is not in the
sources (board.h declares it only).  Per the spec it fails (returns false,
no state change) when the cell is out of range or occupied; otherwise it
places the side-to-move stone, flips the side to move, updates the hash by
XORing in the placed-stone constant and the side constant, and returns
true. -/
def Board.makeMove (b : Board) (zob : Zobrist) (x y : Int) : Bool × Board :=
  if inB x ∧ inB y then
    if (b.cells x y).isSome then (false, b)
    else
      (true,
        { cells := fun a c => if a = x ∧ c = y then some b.sideToMove else b.cells a c
          sideToMove := otherPlayer b.sideToMove
          hashKey := (b.hashKey ^^^ zob.table x y b.sideToMove) ^^^ zob.side })
  else (false, b)

/-- The twelve valid coordinates, in increasing order. -/
def intRange12 : List Int := [0, 1, 2, 3, 4, 5, 6, 7, 8, 9, 10, 11]

/-- All 144 cells in row-major order (y outer, x inner). -/
def coords : List Move :=
  intRange12.flatMap (fun y => intRange12.map (fun x => Move.mk x y))

/-- Modelled from the spec: the body of `Board::getLegalMoves` is not in the
sources.  Per the spec it returns every empty cell in a fixed deterministic
row-major order. -/
def Board.getLegalMoves (b : Board) : List Move :=
  coords.filter (fun m => (getCell b m.x m.y).isNone)

/-- `collectLegalMoves` from threat_solver_analysis.cpp: takes
`getLegalMoves` and sorts it row-major (by y then x).  `getLegalMoves` as
modelled already enumerates in exactly that order, so the sort is the
identity here. -/
def collectLegalMoves (b : Board) : List Move :=
  b.getLegalMoves

/-- The four scan directions used for the five-in-a-row check. -/
def dirs : List (Int × Int) := [(1, 0), (0, 1), (1, 1), (1, -1)]

/-- Modelled from the spec: the body of `Board::checkWin` is not in the
sources.  Per the spec it scans all four line directions for five-in-a-row
contiguity of the given player; it is a pure query. -/
def Board.checkWin (b : Board) (p : Player) : Bool :=
  coords.any fun m => dirs.any fun d =>
    (List.range 5).all fun i =>
      decide (getCell b (m.x + (i : Int) * d.1) (m.y + (i : Int) * d.2) = some p)

/-- `isImmediateWinningMove` from threat_solver_analysis.cpp: refuse occupied
cells, play the move with `makeMove` (this places the stone of the side to
move), then test `checkWin(attacker)`; the C++ then unmakes the move, which
the pure embedding does not need. -/
def isImmediateWinningMove (zob : Zobrist) (b : Board) (move : Move) (attacker : Player) : Bool :=
  if b.isOccupied move.x move.y then false
  else
    match b.makeMove zob move.x move.y with
    | (false, _) => false
    | (true, after) => after.checkWin attacker

/-- `ThreatSolver::Impl::hasImmediateWinningThreat` from
threat_solver_analysis.cpp: true when the player already has a five, or some
legal move is an immediate winning move for the player. -/
def hasImmediateWinningThreat (zob : Zobrist) (b : Board) (player : Player) : Bool :=
  if b.checkWin player then true
  else (collectLegalMoves b).any fun m => isImmediateWinningMove zob b m player

/-- The property the claim about `hasImmediateWinningThreat` describes,
following the words of the spec: the attacker already has a Five, or at
least one legal move creates a Five for the attacker when played (that is,
when a stone of the attacker is placed on it).  Stated for comparison with
the source definition. -/
def specHasImmediateWinningThreat (b : Board) (attacker : Player) : Bool :=
  b.checkWin attacker ||
    (collectLegalMoves b).any fun m => (b.setCell m.x m.y attacker).checkWin attacker

/-- The scan loop of `findWinningThreatSequence`: checks the abort flag,
counts the move as an explored branch point against `maxNodes`, then tests
the move; returns the first immediate winning move found. -/
def threatScan (hit : Move → Bool) (abort : Bool) (maxNodes : Int) :
    List Move → Int → Option Move
  | [], _ => none
  | m :: rest, nodes =>
    if abort then none
    else if maxNodes < nodes + 1 then none
    else if hit m then some m
    else threatScan hit abort maxNodes rest (nodes + 1)

/-- The ThreatInstance built for a found winning move in
threat_solver_analysis.cpp: type Five, the attacker, the move as the only
finishing move, all other fields default. -/
def fiveThreat (attacker : Player) (m : Move) : ThreatInstance :=
  { type := ThreatType.Five, attacker := attacker, finishingMoves := [m] }

/-- `ThreatSolver::Impl::findWinningThreatSequence` from
threat_solver_analysis.cpp, for a present root board: if the attacker
already has a five the sequence is just the attacker tag; otherwise scan the
sorted legal moves for an immediate winning move, subject to the abort flag
and the node limit.  On failure the C++ leaves the out-parameter untouched;
the embedding returns a default sequence together with `false`. -/
def findWinningThreatSequence (zob : Zobrist) (b : Board) (attacker : Player)
    (limits : ThreatSearchLimits) : Bool × ThreatSequence :=
  if b.checkWin attacker then
    (true, { attacker := attacker })
  else
    match threatScan (fun m => isImmediateWinningMove zob b m attacker)
        (abortRequested limits) limits.maxNodes (collectLegalMoves b) 0 with
    | some m =>
      (true,
        { attacker := attacker
          threats := [fiveThreat attacker m]
          attackerMoves := [m] })
    | none => (false, { attacker := attacker })

/-- The collection loop of `computeDefensiveSet`: same abort-flag and
node-limit checks as the winning scan, appending every immediate winning
move of the attacker; the Bool records whether the loop ran to completion
(the C++ early returns hand back the moves collected so far). -/
def dsScan (hit : Move → Bool) (abort : Bool) (maxNodes : Int) :
    List Move → Int → List Move → Bool × List Move
  | [], _, acc => (true, acc)
  | m :: rest, nodes, acc =>
    if abort then (false, acc)
    else if maxNodes < nodes + 1 then (false, acc)
    else dsScan hit abort maxNodes rest (nodes + 1) (if hit m then acc ++ [m] else acc)

/-- `ThreatSolver::Impl::computeDefensiveSet` from
threat_solver_analysis.cpp, for a present root board: scan the sorted legal
moves for immediate winning moves of the opponent of `defender`; on an early
abort or node-limit return, hand back what was collected with the default
`isLost = false`; after a complete scan, an empty collection means safe, two
or more collected moves mean lost with the move list cleared, and a single
collected move is returned as the one defensive move. -/
def computeDefensiveSet (zob : Zobrist) (b : Board) (defender : Player)
    (limits : ThreatSearchLimits) : DefensiveSet :=
  let attacker := otherPlayer defender
  let scan := dsScan (fun m => isImmediateWinningMove zob b m attacker)
    (abortRequested limits) limits.maxNodes (collectLegalMoves b) 0 []
  if scan.1 = false then { isLost := false, defensiveMoves := scan.2 }
  else if scan.2 = [] then { isLost := false, defensiveMoves := [] }
  else if 1 < scan.2.length then { isLost := true, defensiveMoves := [] }
  else { isLost := false, defensiveMoves := scan.2 }

/-- `ThreatSolver::Impl::collectCurrentForcingThreats` from
threat_solver_analysis.cpp: one pass over the sorted legal moves, appending
a Five-type ThreatInstance for every immediate winning move of the player. -/
def collectCurrentForcingThreats (zob : Zobrist) (b : Board) (player : Player) :
    List ThreatInstance :=
  (collectLegalMoves b).filterMap fun m =>
    if isImmediateWinningMove zob b m player then some (fiveThreat player m) else none

/-- `ThreatSolver::Impl::getThreatAt` from threat_solver_state.cpp: the
simplified solver only understands immediate wins and exposes no
per-direction threat, returning None unconditionally. -/
def getThreatAt (_attacker : Player) (_move : Move) (_direction : Direction) : ThreatType :=
  ThreatType.None

/-- `ThreatSolver::Impl::getThreatsAt` from threat_solver_state.cpp: clears
the output and pushes the per-direction classification for all four
directions. -/
def getThreatsAt (attacker : Player) (move : Move) : List ThreatType :=
  [getThreatAt attacker move Direction.Horizontal,
   getThreatAt attacker move Direction.Vertical,
   getThreatAt attacker move Direction.DiagNWSE,
   getThreatAt attacker move Direction.DiagNESW]

/-- `kInfinity` from search_types.h: `numeric_limits<int>::max() / 4`. -/
def kInfinity : Int := 2147483647 / 4

/-- `kMateScore` from search_types.h. -/
def kMateScore : Int := kInfinity - 1000

/-- Modelled from the spec: the bodies of `TranspositionTable::toTTScore`
and `fromTTScore` are not in the sources (transposition_table.h declares
them only).  Scores within this window below `kMateScore` in absolute value
are mate scores; ordinary scores lie strictly inside `(-kMateThreshold,
kMateThreshold)`. -/
def kMateThreshold : Int := kMateScore - 1000

/-- Modelled from the spec: converts a root-relative mate score to distance
from this node before storing; `score - plyFromRoot` for winning mates,
`score + plyFromRoot` for losing mates, ordinary scores pass through. -/
def toTTScore (score : Int) (plyFromRoot : Int) : Int :=
  if kMateThreshold ≤ score then score - plyFromRoot
  else if score ≤ -kMateThreshold then score + plyFromRoot
  else score

/-- Modelled from the spec: reverses `toTTScore` on read. -/
def fromTTScore (score : Int) (plyFromRoot : Int) : Int :=
  if kMateThreshold ≤ score then score + plyFromRoot
  else if score ≤ -kMateThreshold then score - plyFromRoot
  else score

/-- A concrete Zobrist assignment used by the concrete evaluations. -/
def zob0 : Zobrist := { table := fun _ _ _ => 0, side := 0 }

/-- Concrete occupancy: Black stones on (0..3, 0), cell (4, 0) empty, every
other cell White. -/
def cellsFourA (x y : Int) : Option Player :=
  if y = 0 ∧ 0 ≤ x ∧ x < 4 then some Player.Black
  else if x = 4 ∧ y = 0 then none
  else some Player.White

/-- Board with a Black four on row 0, its single completion cell (4, 0) as
the only empty cell, Black to move. -/
def boardFourBlackToMove : Board :=
  { cells := cellsFourA, sideToMove := Player.Black, hashKey := 0 }

/-- The same occupancy with White to move. -/
def boardFourWhiteToMove : Board :=
  { cells := cellsFourA, sideToMove := Player.White, hashKey := 0 }

/-- Board with an existing Black five on row 0 and an otherwise empty board,
White to move. -/
def boardFiveOpen : Board :=
  { cells := fun x y => if y = 0 ∧ 0 ≤ x ∧ x < 5 then some Player.Black else none
    sideToMove := Player.White
    hashKey := 0 }

/-- Board with an existing Black five on row 0, a single empty cell at
(11, 11) and every other cell White, White to move. -/
def boardFiveFull : Board :=
  { cells := fun x y =>
      if y = 0 ∧ 0 ≤ x ∧ x < 5 then some Player.Black
      else if x = 11 ∧ y = 11 then none
      else some Player.White
    sideToMove := Player.White
    hashKey := 0 }

/-- An empty board with Black to move. -/
def boardEmpty : Board :=
  { cells := fun _ _ => none, sideToMove := Player.Black, hashKey := 0 }

theorem otherPlayer_ne (p : Player) : otherPlayer p ≠ p := by
  cases p <;> simp [otherPlayer]

theorem mem_intRange12 (v : Int) : v ∈ intRange12 ↔ 0 ≤ v ∧ v < 12 := by
  simp only [intRange12, List.mem_cons, List.not_mem_nil, or_false]
  omega

theorem mem_coords (m : Move) : m ∈ coords ↔ inB m.x ∧ inB m.y := by
  simp only [coords, List.mem_flatMap, List.mem_map, mem_intRange12, inB]
  constructor
  · rintro ⟨y, hy, x, hx, rfl⟩
    exact ⟨hx, hy⟩
  · rintro ⟨hx, hy⟩
    exact ⟨m.y, hy, m.x, hx, rfl⟩

theorem getCell_inB (b : Board) (x y : Int) (hx : inB x) (hy : inB y) :
    getCell b x y = b.cells x y := by
  unfold getCell
  exact if_pos ⟨hx, hy⟩

theorem getCell_setCell (b : Board) (x y : Int) (p : Player) (a c : Int) :
    getCell (b.setCell x y p) a c =
      if a = x ∧ c = y then (if inB a ∧ inB c then some p else none)
      else getCell b a c := by
  unfold getCell Board.setCell
  by_cases h1 : a = x ∧ c = y <;> by_cases h2 : inB a ∧ inB c <;>
    simp [h1, h2]

theorem getCell_setCell_other (b : Board) (x y : Int) (p : Player) (a c : Int)
    (h : ¬(a = x ∧ c = y)) :
    getCell (b.setCell x y p) a c = getCell b a c := by
  rw [getCell_setCell, if_neg h]

theorem getCell_setCell_self_ne (b : Board) (x y : Int) (q p : Player) (hq : q ≠ p) :
    getCell (b.setCell x y q) x y ≠ some p := by
  rw [getCell_setCell, if_pos ⟨rfl, rfl⟩]
  by_cases h : inB x ∧ inB y <;> simp [h, hq]

theorem getCell_setCell_self (b : Board) (x y : Int) (p : Player)
    (hx : inB x) (hy : inB y) :
    getCell (b.setCell x y p) x y = some p := by
  rw [getCell_setCell, if_pos ⟨rfl, rfl⟩, if_pos ⟨hx, hy⟩]

theorem checkWin_congr (b1 b2 : Board) (h : b1.cells = b2.cells) (p : Player) :
    b1.checkWin p = b2.checkWin p := by
  cases b1
  cases b2
  simp only at h
  subst h
  rfl

theorem checkWin_eq_true_iff (b : Board) (p : Player) :
    b.checkWin p = true ↔
      ∃ m ∈ coords, ∃ d ∈ dirs, ∀ i ∈ List.range 5,
        getCell b (m.x + (i : Int) * d.1) (m.y + (i : Int) * d.2) = some p := by
  simp [Board.checkWin, List.any_eq_true, List.all_eq_true]

theorem checkWin_setCell_ne (b : Board) (x y : Int) (q p : Player) (hq : q ≠ p)
    (hcell : getCell b x y ≠ some p) :
    (b.setCell x y q).checkWin p = b.checkWin p := by
  have hiff : ∀ a c : Int,
      getCell (b.setCell x y q) a c = some p ↔ getCell b a c = some p := by
    intro a c
    by_cases h : a = x ∧ c = y
    · obtain ⟨rfl, rfl⟩ := h
      constructor
      · intro hcontra
        exact absurd hcontra (getCell_setCell_self_ne b a c q p hq)
      · intro hcontra
        exact absurd hcontra hcell
    · rw [getCell_setCell_other b x y q a c h]
  have h1 := checkWin_eq_true_iff (b.setCell x y q) p
  have h2 := checkWin_eq_true_iff b p
  rcases hb : b.checkWin p with _ | _
  · rcases hb2 : (b.setCell x y q).checkWin p with _ | _
    · rfl
    · exfalso
      obtain ⟨m, hm, d, hd, hall⟩ := h1.mp hb2
      have : b.checkWin p = true :=
        h2.mpr ⟨m, hm, d, hd, fun i hi => (hiff _ _).mp (hall i hi)⟩
      rw [hb] at this
      exact Bool.false_ne_true this
  · obtain ⟨m, hm, d, hd, hall⟩ := h2.mp hb
    exact h1.mpr ⟨m, hm, d, hd, fun i hi => (hiff _ _).mpr (hall i hi)⟩

theorem mem_collectLegalMoves (b : Board) (m : Move) :
    m ∈ collectLegalMoves b ↔ (inB m.x ∧ inB m.y) ∧ getCell b m.x m.y = none := by
  simp only [collectLegalMoves, Board.getLegalMoves, List.mem_filter, mem_coords,
    Option.isNone_iff_eq_none]

theorem isImmediateWinningMove_legal (zob : Zobrist) (b : Board) (m : Move)
    (attacker : Player) (h : m ∈ collectLegalMoves b) :
    isImmediateWinningMove zob b m attacker
      = (b.setCell m.x m.y b.sideToMove).checkWin attacker := by
  obtain ⟨⟨hx, hy⟩, hcell⟩ := (mem_collectLegalMoves b m).mp h
  have hraw : b.cells m.x m.y = none := by
    rw [← getCell_inB b m.x m.y hx hy]
    exact hcell
  have hocc : b.isOccupied m.x m.y = false := by
    simp [Board.isOccupied, hcell]
  have hmk : b.makeMove zob m.x m.y =
      (true,
        { cells := fun a c => if a = m.x ∧ c = m.y then some b.sideToMove else b.cells a c
          sideToMove := otherPlayer b.sideToMove
          hashKey := (b.hashKey ^^^ zob.table m.x m.y b.sideToMove) ^^^ zob.side }) := by
    unfold Board.makeMove
    rw [if_pos ⟨hx, hy⟩, hraw]
    rfl
  simp only [isImmediateWinningMove, hocc, hmk, Bool.false_eq_true, if_false]
  exact checkWin_congr _ _ rfl attacker

theorem threatScan_mem_of_some (hit : Move → Bool) (abort : Bool) (maxNodes : Int) :
    ∀ (l : List Move) (n : Int) (m : Move),
      threatScan hit abort maxNodes l n = some m → m ∈ l ∧ hit m = true := by
  intro l
  induction l with
  | nil => intro n m h; simp [threatScan] at h
  | cons a rest ih =>
    intro n m h
    unfold threatScan at h
    by_cases hab : abort = true
    · rw [if_pos hab] at h; exact absurd h (by simp)
    · rw [if_neg hab] at h
      by_cases hlim : maxNodes < n + 1
      · rw [if_pos hlim] at h; exact absurd h (by simp)
      · rw [if_neg hlim] at h
        by_cases hh : hit a = true
        · rw [if_pos hh] at h
          obtain rfl : a = m := by simpa using h
          exact ⟨List.mem_cons_self a rest, hh⟩
        · rw [if_neg hh] at h
          obtain ⟨hmem, hm⟩ := ih (n + 1) m h
          exact ⟨List.mem_cons_of_mem a hmem, hm⟩

theorem threatScan_none_of_no_hit (hit : Move → Bool) (abort : Bool) (maxNodes : Int) :
    ∀ (l : List Move) (n : Int), (∀ m ∈ l, hit m = false) →
      threatScan hit abort maxNodes l n = none := by
  intro l
  induction l with
  | nil => intro n _; rfl
  | cons a rest ih =>
    intro n h
    unfold threatScan
    by_cases hab : abort = true
    · rw [if_pos hab]
    · rw [if_neg hab]
      by_cases hlim : maxNodes < n + 1
      · rw [if_pos hlim]
      · rw [if_neg hlim]
        have ha : hit a = false := h a (List.mem_cons_self a rest)
        rw [ha]
        simp only [Bool.false_eq_true, if_false]
        exact ih (n + 1) fun m hm => h m (List.mem_cons_of_mem a hm)

theorem threatScan_none_of_take (hit : Move → Bool) (abort : Bool) (maxNodes : Int) :
    ∀ (l : List Move) (n : Int),
      (∀ m ∈ l.take (maxNodes - n).toNat, hit m = false) →
      threatScan hit abort maxNodes l n = none := by
  intro l
  induction l with
  | nil => intro n _; rfl
  | cons a rest ih =>
    intro n h
    unfold threatScan
    by_cases hab : abort = true
    · rw [if_pos hab]
    · rw [if_neg hab]
      by_cases hlim : maxNodes < n + 1
      · rw [if_pos hlim]
      · rw [if_neg hlim]
        have hk : (maxNodes - n).toNat = (maxNodes - (n + 1)).toNat + 1 := by omega
        have ha : hit a = false := by
          apply h a
          rw [hk]
          exact List.mem_cons_self a _
        rw [ha]
        simp only [Bool.false_eq_true, if_false]
        apply ih (n + 1)
        intro m hm
        apply h m
        rw [hk]
        exact List.mem_cons_of_mem a hm

theorem dsScan_complete (hit : Move → Bool) (maxNodes : Int) :
    ∀ (l : List Move) (n : Int) (acc : List Move),
      n + (l.length : Int) ≤ maxNodes →
      dsScan hit false maxNodes l n acc = (true, acc ++ l.filter hit) := by
  intro l
  induction l with
  | nil => intro n acc _; simp [dsScan]
  | cons a rest ih =>
    intro n acc h
    have hlen : (List.length (a :: rest) : Int) = (rest.length : Int) + 1 := by
      simp
    rw [hlen] at h
    unfold dsScan
    have hlim : ¬ maxNodes < n + 1 := by omega
    rw [if_neg (by simp), if_neg hlim]
    rw [ih (n + 1) (if hit a then acc ++ [a] else acc) (by omega)]
    by_cases hh : hit a = true
    · simp [hh, List.filter_cons]
    · simp only [Bool.not_eq_true] at hh
      simp [hh, List.filter_cons]

theorem threatScan_none_of_abort (hit : Move → Bool) (maxNodes : Int) :
    ∀ (l : List Move) (n : Int), threatScan hit true maxNodes l n = none := by
  intro l
  induction l with
  | nil => intro n; rfl
  | cons a rest _ =>
    intro n
    unfold threatScan
    rw [if_pos rfl]

theorem player_cases (p q : Player) : p = q ∨ p = otherPlayer q := by
  cases p <;> cases q <;> simp [otherPlayer]

theorem computeDefensiveSet_complete (zob : Zobrist) (b : Board) (defender : Player)
    (limits : ThreatSearchLimits) (hab : abortRequested limits = false)
    (hn : ((collectLegalMoves b).length : Int) ≤ limits.maxNodes) :
    computeDefensiveSet zob b defender limits =
      (if (collectLegalMoves b).filter
            (fun m => isImmediateWinningMove zob b m (otherPlayer defender)) = [] then
        { isLost := false, defensiveMoves := [] }
      else if 1 < ((collectLegalMoves b).filter
            (fun m => isImmediateWinningMove zob b m (otherPlayer defender))).length then
        { isLost := true, defensiveMoves := [] }
      else
        { isLost := false
          defensiveMoves := (collectLegalMoves b).filter
            (fun m => isImmediateWinningMove zob b m (otherPlayer defender)) }) := by
  simp only [computeDefensiveSet]
  rw [hab]
  rw [dsScan_complete (fun m => isImmediateWinningMove zob b m (otherPlayer defender))
    limits.maxNodes (collectLegalMoves b) 0 [] (by omega)]
  simp

/-- C6 (counterexample): the claim says the Move ordering is row-major (a < b
exactly when a.y < b.y, or a.y = b.y and a.x < b.x).  At a = (0, 1) and
b = (1, 0) the source `operator<` returns true while the row-major order
says false, so the claim fails on the code. -/
theorem C6_counterexample :
    Move.lt ⟨0, 1⟩ ⟨1, 0⟩ = true ∧ specRowMajorLt ⟨0, 1⟩ ⟨1, 0⟩ = false := by
  constructor <;> rfl

/-- C6 (amended): the Move operator< is a strict total order in column-major
form: for any moves a and b, a < b holds exactly when a.x < b.x, or
a.x = b.x and a.y < b.y; it is irreflexive, transitive and total on
distinct moves. -/
theorem C6_amended_column_major_total_order :
    ∀ a b c : Move,
      (Move.lt a b = true ↔ (a.x < b.x ∨ (a.x = b.x ∧ a.y < b.y))) ∧
      Move.lt a a = false ∧
      (Move.lt a b = true → Move.lt b c = true → Move.lt a c = true) ∧
      (a ≠ b → Move.lt a b = true ∨ Move.lt b a = true) := by
  intro a b c
  obtain ⟨ax, ay⟩ := a
  obtain ⟨bx, b2⟩ := b
  obtain ⟨cx, c2⟩ := c
  refine ⟨?_, ?_, ?_, ?_⟩
  · simp only [Move.lt, Bool.or_eq_true, Bool.and_eq_true, decide_eq_true_eq]
  · simp [Move.lt]
  · simp only [Move.lt, Bool.or_eq_true, Bool.and_eq_true, decide_eq_true_eq]
    omega
  · simp only [Move.lt, ne_eq, Move.mk.injEq, not_and, Bool.or_eq_true,
      Bool.and_eq_true, decide_eq_true_eq]
    omega

/-- C6 (witness): the amended order evaluated at concrete moves. -/
theorem C6_amended_witness :
    Move.lt ⟨0, 0⟩ ⟨5, 7⟩ = true ∧ Move.lt ⟨0, 0⟩ ⟨9, 9⟩ = true :=
  ⟨((C6_amended_column_major_total_order ⟨0, 0⟩ ⟨5, 7⟩ ⟨9, 9⟩).1).mpr (Or.inl (by decide)),
   (C6_amended_column_major_total_order ⟨0, 0⟩ ⟨5, 7⟩ ⟨9, 9⟩).2.2.1 (by decide) (by decide)⟩

/-- C8: for every valid mate score s and ply distance d,
fromTTScore (toTTScore s d) d = s; toTTScore subtracts plyFromRoot for
winning mate scores, adds it for losing mate scores, and passes ordinary
scores through unchanged, fromTTScore being the exact inverse.  A winning
mate score is valid at distance d when it remains a mate score after the
shift (kMateThreshold <= s - d), symmetrically for losing mates. -/
theorem C8_mate_score_round_trip (s d : Int) (hd : 0 ≤ d) :
    (kMateThreshold ≤ s - d →
      toTTScore s d = s - d ∧ fromTTScore (toTTScore s d) d = s) ∧
    (s + d ≤ -kMateThreshold →
      toTTScore s d = s + d ∧ fromTTScore (toTTScore s d) d = s) ∧
    (-kMateThreshold < s ∧ s < kMateThreshold →
      toTTScore s d = s ∧ fromTTScore s d = s) := by
  have hT : kMateThreshold = 536868911 := by decide
  unfold toTTScore fromTTScore
  refine ⟨?_, ?_, ?_⟩ <;> intro h <;> split_ifs <;> omega

/-- C8 (witness): the round trip evaluated at a concrete winning mate score
and ply distance. -/
theorem C8_witness :
    fromTTScore (toTTScore (kMateThreshold + 5) 2) 2 = kMateThreshold + 5 :=
  ((C8_mate_score_round_trip (kMateThreshold + 5) 2 (by decide)).1 (by decide)).2

/-- C10: for every attacker, move and direction, getThreatAt returns
ThreatType::None, and getThreatsAt yields exactly four entries (one per
direction), all None. -/
theorem C10_threat_board_exposes_none :
    ∀ (attacker : Player) (move : Move) (direction : Direction),
      getThreatAt attacker move direction = ThreatType.None ∧
      getThreatsAt attacker move =
        [ThreatType.None, ThreatType.None, ThreatType.None, ThreatType.None] ∧
      (getThreatsAt attacker move).length = 4 := by
  intro a m d
  exact ⟨rfl, rfl, rfl⟩

/-- C7: makeMove fails (returns false with the board unchanged) on an
out-of-range or occupied cell; otherwise it places the side-to-move stone at
(x, y), leaves every other cell unchanged, flips the side to move, XORs the
placed-stone constant and the side constant into the hash, and returns
true. -/
theorem C7_makeMove_contract (zob : Zobrist) (b : Board) (x y : Int) :
    ((¬(inB x ∧ inB y) ∨ b.isOccupied x y = true) → b.makeMove zob x y = (false, b)) ∧
    ((inB x ∧ inB y) ∧ b.isOccupied x y = false →
      (b.makeMove zob x y).1 = true ∧
      getCell (b.makeMove zob x y).2 x y = some b.sideToMove ∧
      (∀ a c : Int, ¬(a = x ∧ c = y) →
        getCell (b.makeMove zob x y).2 a c = getCell b a c) ∧
      (b.makeMove zob x y).2.sideToMove = otherPlayer b.sideToMove ∧
      (b.makeMove zob x y).2.hashKey
        = (b.hashKey ^^^ zob.table x y b.sideToMove) ^^^ zob.side) := by
  constructor
  · intro h
    rcases h with hr | hocc
    · unfold Board.makeMove
      rw [if_neg hr]
    · by_cases hr : inB x ∧ inB y
      · have hraw : (b.cells x y).isSome = true := by
          have := getCell_inB b x y hr.1 hr.2
          unfold Board.isOccupied at hocc
          rw [this] at hocc
          exact hocc
        unfold Board.makeMove
        rw [if_pos hr, if_pos hraw]
      · unfold Board.makeMove
        rw [if_neg hr]
  · rintro ⟨hr, hocc⟩
    have hraw : (b.cells x y).isSome = false := by
      have := getCell_inB b x y hr.1 hr.2
      unfold Board.isOccupied at hocc
      rw [this] at hocc
      exact hocc
    have hmk : b.makeMove zob x y =
        (true,
          { cells := fun a c => if a = x ∧ c = y then some b.sideToMove else b.cells a c
            sideToMove := otherPlayer b.sideToMove
            hashKey := (b.hashKey ^^^ zob.table x y b.sideToMove) ^^^ zob.side }) := by
      unfold Board.makeMove
      rw [if_pos hr, hraw]
      rfl
    rw [hmk]
    refine ⟨rfl, ?_, ?_, rfl, rfl⟩
    · exact getCell_setCell_self b x y b.sideToMove hr.1 hr.2
    · intro a c h
      exact getCell_setCell_other b x y b.sideToMove a c h

/-- C7 (witness): makeMove evaluated on the empty board, on a legal cell and
on an out-of-range cell. -/
theorem C7_witness :
    (boardEmpty.makeMove zob0 5 5).1 = true ∧
    getCell (boardEmpty.makeMove zob0 5 5).2 5 5 = some Player.Black ∧
    (boardEmpty.makeMove zob0 5 5).2.sideToMove = Player.White ∧
    boardEmpty.makeMove zob0 12 0 = (false, boardEmpty) := by
  have h := (C7_makeMove_contract zob0 boardEmpty 5 5).2 ⟨by decide, by decide⟩
  have h2 := (C7_makeMove_contract zob0 boardEmpty 12 0).1 (Or.inl (by decide))
  exact ⟨h.1, h.2.1, h.2.2.2.1, h2⟩

/-- C2: for a defensive computation that runs to completion (abort flag
unset, node limit at least the number of legal moves), writing `wins` for
the list of immediate winning moves the scan discovers for the opponent of
the defender: when no forcing win is found (wins empty) the result is
isLost = false with an empty move list (no restriction); when exactly one
universal refutation exists (wins = [m], occupying that single winning
cell) the defensive list contains exactly that move; when more than one
winning line exists with no common refutation (two or more winning cells)
the position is marked lost with the move list cleared. -/
theorem C2_computeDefensiveSet_cases (zob : Zobrist) (b : Board) (defender : Player)
    (limits : ThreatSearchLimits) (hab : abortRequested limits = false)
    (hn : ((collectLegalMoves b).length : Int) ≤ limits.maxNodes) :
    ((collectLegalMoves b).filter
        (fun m => isImmediateWinningMove zob b m (otherPlayer defender)) = [] →
      computeDefensiveSet zob b defender limits =
        { isLost := false, defensiveMoves := [] }) ∧
    (∀ m : Move,
      (collectLegalMoves b).filter
          (fun m => isImmediateWinningMove zob b m (otherPlayer defender)) = [m] →
        computeDefensiveSet zob b defender limits =
          { isLost := false, defensiveMoves := [m] }) ∧
    (1 < ((collectLegalMoves b).filter
        (fun m => isImmediateWinningMove zob b m (otherPlayer defender))).length →
      computeDefensiveSet zob b defender limits =
        { isLost := true, defensiveMoves := [] }) := by
  rw [computeDefensiveSet_complete zob b defender limits hab hn]
  refine ⟨?_, ?_, ?_⟩
  · intro h
    rw [if_pos h]
  · intro m h
    rw [h]
    simp
  · intro h
    have hne : (collectLegalMoves b).filter
        (fun m => isImmediateWinningMove zob b m (otherPlayer defender)) ≠ [] := by
      intro hc
      rw [hc] at h
      simp at h
    rw [if_neg hne, if_pos h]

/-- C2 (witness): on the board with a Black four on row 0 and Black to move,
the single Black winning cell (4, 0) is the one defensive move returned for
White. -/
theorem C2_witness :
    computeDefensiveSet zob0 boardFourBlackToMove Player.White {} =
      { isLost := false, defensiveMoves := [⟨4, 0⟩] } :=
  (C2_computeDefensiveSet_cases zob0 boardFourBlackToMove Player.White {} (by decide)
    (by decide)).2.1 ⟨4, 0⟩ (by decide)

/-- C9: whenever findWinningThreatSequence returns true, the sequence has no
defender moves, at most one attacker move, the attacker move list is empty
exactly when the attacker already has five-in-a-row on the board, and
otherwise it consists of a single legal move whose play (a stone of the side
to move) leaves the attacker with five-in-a-row. -/
theorem C9_winning_sequence_shape (zob : Zobrist) (b : Board) (attacker : Player)
    (limits : ThreatSearchLimits)
    (h : (findWinningThreatSequence zob b attacker limits).1 = true) :
    (findWinningThreatSequence zob b attacker limits).2.defenderMoves = [] ∧
    (findWinningThreatSequence zob b attacker limits).2.attackerMoves.length ≤ 1 ∧
    ((findWinningThreatSequence zob b attacker limits).2.attackerMoves = [] ↔
      b.checkWin attacker = true) ∧
    (b.checkWin attacker = false →
      ∃ m, (findWinningThreatSequence zob b attacker limits).2.attackerMoves = [m] ∧
        m ∈ collectLegalMoves b ∧
        (b.setCell m.x m.y b.sideToMove).checkWin attacker = true) := by
  by_cases hw : b.checkWin attacker = true
  · unfold findWinningThreatSequence
    rw [hw]
    simp
  · have hw' : b.checkWin attacker = false := by simpa using hw
    unfold findWinningThreatSequence at h ⊢
    rw [hw'] at h ⊢
    simp only [Bool.false_eq_true, if_false] at h ⊢
    rcases hscan : threatScan (fun m => isImmediateWinningMove zob b m attacker)
        (abortRequested limits) limits.maxNodes (collectLegalMoves b) 0 with _ | m
    · rw [hscan] at h
      simp at h
    · obtain ⟨hmem, hhit⟩ := threatScan_mem_of_some _ _ _ _ _ _ hscan
      rw [isImmediateWinningMove_legal zob b m attacker hmem] at hhit
      refine ⟨rfl, by simp, by simp [hw'], fun _ => ⟨m, rfl, hmem, hhit⟩⟩

/-- C9 (witness): on a board where Black already has a five, the returned
sequence has empty defender and attacker move lists. -/
theorem C9_witness :
    (findWinningThreatSequence zob0 boardFiveOpen Player.Black {}).2.defenderMoves = [] ∧
    (findWinningThreatSequence zob0 boardFiveOpen Player.Black {}).2.attackerMoves = [] := by
  have h := C9_winning_sequence_shape zob0 boardFiveOpen Player.Black {} (by decide)
  exact ⟨h.1, h.2.2.1.mpr (by decide)⟩

/-- C4 (counterexample): the claim says findWinningThreatSequence returns
false whenever the abort flag is set during the search.  The already-won
check runs before any branch or abort check: on a board where Black already
has a five, the call returns true even though the abort flag is set for the
whole call. -/
theorem C4_counterexample :
    (findWinningThreatSequence zob0 boardFiveOpen Player.Black
      { abortFlag := some true }).1 = true := by
  decide

/-- C4 (amended): provided the attacker does not already have five-in-a-row
on the board (that case is decided before any branch point), the call
returns false whenever the abort flag is set, and returns false when the
explored branch points exhaust maxNodes, that is, when no immediate winning
move appears among the first maxNodes legal moves in scan order; such a
false return means only that no winning sequence was found under these
limits. -/
theorem C4_amended_limits_false (zob : Zobrist) (b : Board) (attacker : Player)
    (limits : ThreatSearchLimits) (hw : b.checkWin attacker = false)
    (h : abortRequested limits = true ∨
      ∀ m ∈ (collectLegalMoves b).take limits.maxNodes.toNat,
        isImmediateWinningMove zob b m attacker = false) :
    (findWinningThreatSequence zob b attacker limits).1 = false := by
  unfold findWinningThreatSequence
  rw [hw]
  simp only [Bool.false_eq_true, if_false]
  rcases h with hab | hnone
  · rw [hab, threatScan_none_of_abort]
  · rw [threatScan_none_of_take (fun m => isImmediateWinningMove zob b m attacker)
      (abortRequested limits) limits.maxNodes (collectLegalMoves b) 0
      (by simpa using hnone)]

/-- C4 (witness): with the abort flag set on a not-yet-won board the call
returns false. -/
theorem C4_witness :
    (findWinningThreatSequence zob0 boardFourBlackToMove Player.Black
      { abortFlag := some true }).1 = false :=
  C4_amended_limits_false zob0 boardFourBlackToMove Player.Black
    { abortFlag := some true } (by decide) (Or.inl (by decide))

/-- C1 (counterexample): the claim says hasImmediateWinningThreat(attacker)
is true exactly when the attacker has a Five or some legal move creates a
Five for the attacker when played.  On the board with a Black four on row 0
and White to move, the cell (4, 0) is a legal move that creates a Black Five
when a Black stone is played on it, yet the function returns false: its
probe plays the move with makeMove, which places a stone of the side to
move (White), never of the attacker. -/
theorem C1_counterexample :
    hasImmediateWinningThreat zob0 boardFourWhiteToMove Player.Black = false ∧
    specHasImmediateWinningThreat boardFourWhiteToMove Player.Black = true := by
  constructor
  · decide
  · decide

/-- C1 (amended): when the attacker is the side to move,
hasImmediateWinningThreat(attacker) returns true exactly when the attacker
already has a Five on the board, or at least one legal move creates a Five
for the attacker when played. -/
theorem C1_amended_iff (zob : Zobrist) (b : Board) (attacker : Player)
    (hside : b.sideToMove = attacker) :
    hasImmediateWinningThreat zob b attacker = true ↔
      (b.checkWin attacker = true ∨
        ∃ m ∈ collectLegalMoves b,
          (b.setCell m.x m.y attacker).checkWin attacker = true) := by
  unfold hasImmediateWinningThreat
  by_cases hw : b.checkWin attacker = true
  · rw [hw]
    simp [hw]
  · have hw' : b.checkWin attacker = false := by simpa using hw
    rw [hw']
    simp only [Bool.false_eq_true, if_false, List.any_eq_true]
    constructor
    · rintro ⟨m, hm, hhit⟩
      refine Or.inr ⟨m, hm, ?_⟩
      rw [isImmediateWinningMove_legal zob b m attacker hm, hside] at hhit
      exact hhit
    · rintro (hc | ⟨m, hm, hwin⟩)
      · exact hc.elim
      · refine ⟨m, hm, ?_⟩
        rw [isImmediateWinningMove_legal zob b m attacker hm, hside]
        exact hwin

/-- C1 (witness): with Black to move on the Black-four board, the threat is
reported. -/
theorem C1_witness :
    hasImmediateWinningThreat zob0 boardFourBlackToMove Player.Black = true :=
  (C1_amended_iff zob0 boardFourBlackToMove Player.Black rfl).mpr
    (Or.inr ⟨⟨4, 0⟩, by decide, by decide⟩)

/-- C5 (counterexample): the claim says every ThreatInstance appended by
collectCurrentForcingThreats has type SimpleFour, OpenThree or BrokenThree.
On the Black-four board with Black to move the function appends exactly one
instance and its type is Five, which is none of those. -/
theorem C5_counterexample :
    collectCurrentForcingThreats zob0 boardFourBlackToMove Player.Black =
      [fiveThreat Player.Black ⟨4, 0⟩] ∧
    (fiveThreat Player.Black ⟨4, 0⟩).type = ThreatType.Five ∧
    ThreatType.Five ≠ ThreatType.SimpleFour ∧
    ThreatType.Five ≠ ThreatType.OpenThree ∧
    ThreatType.Five ≠ ThreatType.BrokenThree := by
  refine ⟨by decide, rfl, by decide, by decide, by decide⟩

/-- C5 (amended): collectCurrentForcingThreats is a single direct pass over
the legal moves with no recursive search: it equals the Five-type instances
built from the immediate winning moves, and every appended instance has
type Five, the player as attacker and a single finishing move that is an
immediate winning move. -/
theorem C5_amended_instances_are_five (zob : Zobrist) (b : Board) (player : Player) :
    collectCurrentForcingThreats zob b player =
      ((collectLegalMoves b).filter
        (fun m => isImmediateWinningMove zob b m player)).map (fiveThreat player) ∧
    ∀ t ∈ collectCurrentForcingThreats zob b player,
      t.type = ThreatType.Five ∧ t.attacker = player ∧
        ∃ m ∈ collectLegalMoves b, t.finishingMoves = [m] ∧
          isImmediateWinningMove zob b m player = true := by
  constructor
  · unfold collectCurrentForcingThreats
    generalize collectLegalMoves b = l
    induction l with
    | nil => rfl
    | cons a rest ih =>
      rw [List.filterMap_cons, List.filter_cons]
      by_cases hh : isImmediateWinningMove zob b a player = true
      · simp [hh, ih]
      · simp [hh, ih]
  · intro t ht
    unfold collectCurrentForcingThreats at ht
    obtain ⟨m, hm, hsome⟩ := List.mem_filterMap.mp ht
    by_cases hh : isImmediateWinningMove zob b m player = true
    · rw [if_pos hh] at hsome
      obtain rfl : fiveThreat player m = t := by simpa using hsome
      exact ⟨rfl, rfl, m, hm, rfl, hh⟩
    · rw [if_neg hh] at hsome
      exact absurd hsome (by simp)

/-- C5 (witness): the amended statement evaluated on the appended instance
of the Black-four board. -/
theorem C5_witness :
    (fiveThreat Player.Black ⟨4, 0⟩).type = ThreatType.Five ∧
    (fiveThreat Player.Black ⟨4, 0⟩).attacker = Player.Black :=
  have h := (C5_amended_instances_are_five zob0 boardFourBlackToMove Player.Black).2
    (fiveThreat Player.Black ⟨4, 0⟩) (by decide)
  ⟨h.1, h.2.1⟩

/-- C3 (counterexample): the claim says that when computeDefensiveSet
returns isLost = false with a nonempty move list, playing any listed move
and re-running findWinningThreatSequence for the opponent returns false.
Two concrete refutations: (1) on the Black-four board with Black to move,
the listed move (4, 0) played with makeMove places a Black stone (the side
to move is the attacker), completing the Black five, and the re-run returns
true; (2) on a board where Black already has a five and only (11, 11) is
empty, (11, 11) is listed, and even placing a White (defender) stone there
leaves the Black five on the board, so the re-run returns true. -/
theorem C3_counterexample :
    computeDefensiveSet zob0 boardFourBlackToMove Player.White {} =
      { isLost := false, defensiveMoves := [⟨4, 0⟩] } ∧
    (findWinningThreatSequence zob0 (boardFourBlackToMove.makeMove zob0 4 0).2
      Player.Black {}).1 = true ∧
    computeDefensiveSet zob0 boardFiveFull Player.White {} =
      { isLost := false, defensiveMoves := [⟨11, 11⟩] } ∧
    (findWinningThreatSequence zob0 (boardFiveFull.setCell 11 11 Player.White)
      Player.Black {}).1 = true := by
  refine ⟨by decide, by decide, by decide, by decide⟩

/-- C3 (amended): if computeDefensiveSet(defender) runs to completion
(abort unset, maxNodes at least the number of legal moves), the opponent
does not already have five-in-a-row, and the result is isLost = false with
a nonempty defensiveMoves list, then for each listed move, placing a
defender stone on that cell and running findWinningThreatSequence for the
opponent, under any limits, returns false. -/
theorem C3_amended_block_is_safe (zob : Zobrist) (b : Board) (defender : Player)
    (limits limits2 : ThreatSearchLimits)
    (hab : abortRequested limits = false)
    (hn : ((collectLegalMoves b).length : Int) ≤ limits.maxNodes)
    (hw : b.checkWin (otherPlayer defender) = false)
    (hlost : (computeDefensiveSet zob b defender limits).isLost = false)
    (hne : (computeDefensiveSet zob b defender limits).defensiveMoves ≠ [])
    (m : Move) (hm : m ∈ (computeDefensiveSet zob b defender limits).defensiveMoves) :
    (findWinningThreatSequence zob (b.setCell m.x m.y defender)
      (otherPlayer defender) limits2).1 = false := by
  rw [computeDefensiveSet_complete zob b defender limits hab hn] at hlost hne hm
  rcases hwl : (collectLegalMoves b).filter
      (fun mv => isImmediateWinningMove zob b mv (otherPlayer defender)) with _ | ⟨m0, rest⟩
  · rw [hwl] at hm
    simp at hm
  · rcases rest with _ | ⟨m1, rest2⟩
    case cons.cons =>
      rw [hwl] at hlost
      rw [if_neg (by simp), if_pos (by simp)] at hlost
      simp at hlost
    case cons.nil =>
      rw [hwl] at hm
      rw [if_neg (by simp), if_neg (by simp)] at hm
      simp at hm
      subst hm
      have hm_mem_wins : m ∈ (collectLegalMoves b).filter
          (fun mv => isImmediateWinningMove zob b mv (otherPlayer defender)) := by
        rw [hwl]
        exact List.mem_singleton.mpr rfl
      have hm_legal : m ∈ collectLegalMoves b := (List.mem_filter.mp hm_mem_wins).1
      have hm_hit : isImmediateWinningMove zob b m (otherPlayer defender) = true :=
        (List.mem_filter.mp hm_mem_wins).2
      have huniq : ∀ c ∈ collectLegalMoves b,
          isImmediateWinningMove zob b c (otherPlayer defender) = true → c = m := by
        intro c hc hhc
        have hcw : c ∈ (collectLegalMoves b).filter
            (fun mv => isImmediateWinningMove zob b mv (otherPlayer defender)) :=
          List.mem_filter.mpr ⟨hc, hhc⟩
        rw [hwl] at hcw
        simpa using hcw
      obtain ⟨⟨hmx, hmy⟩, hmcell⟩ := (mem_collectLegalMoves b m).mp hm_legal
      have hq : defender ≠ otherPlayer defender := (otherPlayer_ne defender).symm
      have hside : b.sideToMove = otherPlayer defender := by
        rcases player_cases b.sideToMove defender with hsd | hsa
        · exfalso
          rw [isImmediateWinningMove_legal zob b m (otherPlayer defender) hm_legal,
            hsd] at hm_hit
          rw [checkWin_setCell_ne b m.x m.y defender (otherPlayer defender) hq
            (by rw [hmcell]; simp)] at hm_hit
          rw [hw] at hm_hit
          exact Bool.false_ne_true hm_hit
        · exact hsa
      have hw' : (b.setCell m.x m.y defender).checkWin (otherPlayer defender) = false := by
        rw [checkWin_setCell_ne b m.x m.y defender (otherPlayer defender) hq
          (by rw [hmcell]; simp)]
        exact hw
      have hside' : (b.setCell m.x m.y defender).sideToMove = otherPlayer defender := hside
      have hscan : threatScan
          (fun mv => isImmediateWinningMove zob (b.setCell m.x m.y defender) mv
            (otherPlayer defender))
          (abortRequested limits2) limits2.maxNodes
          (collectLegalMoves (b.setCell m.x m.y defender)) 0 = none := by
        apply threatScan_none_of_no_hit
        intro c hc
        rcases hval : isImmediateWinningMove zob (b.setCell m.x m.y defender) c
            (otherPlayer defender) with _ | _
        · rfl
        · exfalso
          have hch' := hval
          rw [isImmediateWinningMove_legal zob (b.setCell m.x m.y defender) c
            (otherPlayer defender) hc, hside'] at hch'
          obtain ⟨⟨hcx, hcy⟩, hccell⟩ :=
            (mem_collectLegalMoves (b.setCell m.x m.y defender) c).mp hc
          have hmne : ¬(m.x = c.x ∧ m.y = c.y) := by
            rintro ⟨h1, h2⟩
            have hsd : getCell (b.setCell m.x m.y defender) m.x m.y = some defender :=
              getCell_setCell_self b m.x m.y defender hmx hmy
            rw [← h1, ← h2] at hccell
            rw [hsd] at hccell
            exact Option.noConfusion hccell
          have hcm : ¬(c.x = m.x ∧ c.y = m.y) := fun h => hmne ⟨h.1.symm, h.2.symm⟩
          have hwin_b : (b.setCell c.x c.y (otherPlayer defender)).checkWin
              (otherPlayer defender) = true := by
            rw [checkWin_eq_true_iff] at hch' ⊢
            obtain ⟨w, hwm, d, hd, hall⟩ := hch'
            refine ⟨w, hwm, d, hd, fun i hi => ?_⟩
            have hi' := hall i hi
            have hpos_ne_m : ¬(w.x + (i : Int) * d.1 = m.x ∧
                w.y + (i : Int) * d.2 = m.y) := by
              rintro ⟨h1, h2⟩
              rw [h1, h2] at hi'
              rw [getCell_setCell_other (b.setCell m.x m.y defender) c.x c.y
                (otherPlayer defender) m.x m.y hmne] at hi'
              rw [getCell_setCell_self b m.x m.y defender hmx hmy] at hi'
              exact hq (Option.some.inj hi')
            rw [getCell_setCell] at hi' ⊢
            by_cases hpc : w.x + (i : Int) * d.1 = c.x ∧ w.y + (i : Int) * d.2 = c.y
            · rw [if_pos hpc] at hi' ⊢
              exact hi'
            · rw [if_neg hpc] at hi' ⊢
              rw [getCell_setCell_other b m.x m.y defender _ _ hpos_ne_m] at hi'
              exact hi'
          have hc_legal_b : c ∈ collectLegalMoves b := by
            rw [mem_collectLegalMoves]
            refine ⟨⟨hcx, hcy⟩, ?_⟩
            rw [← getCell_setCell_other b m.x m.y defender c.x c.y hcm]
            exact hccell
          have hc_hit_b : isImmediateWinningMove zob b c (otherPlayer defender) = true := by
            rw [isImmediateWinningMove_legal zob b c (otherPlayer defender) hc_legal_b,
              hside]
            exact hwin_b
          have hcm' : c = m := huniq c hc_legal_b hc_hit_b
          subst hcm'
          exact hcm ⟨rfl, rfl⟩
      unfold findWinningThreatSequence
      rw [hw']
      simp only [Bool.false_eq_true, if_false]
      rw [hscan]

/-- C3 (witness): blocking the single Black winning cell with a White stone
on the Black-four board makes the re-run return false. -/
theorem C3_witness :
    (findWinningThreatSequence zob0 (boardFourBlackToMove.setCell 4 0 Player.White)
      Player.Black {}).1 = false :=
  C3_amended_block_is_safe zob0 boardFourBlackToMove Player.White {} {} (by decide)
    (by decide) (by decide) (by decide) (by decide) ⟨4, 0⟩ (by decide)
